import Mathlib

/-
Verification of the Careud TPMS decoder (src/devices/tpms_careud.c).

The decoder pipeline is embedded shallowly:
- bytes are `Nat` (all values kept below 256 by construction of the bit reader),
- bit buffers are `List Bool` (one row, MSB-first within each byte),
- the C `float` pressure value is embedded as an exact rational, which agrees
  with the C computation because `raw / 64.0` is exact for `raw < 256`,
- shared rtl_433 infrastructure (bitbuffer, crc16, decoder API) is not part of
  the given sources and is modelled from the specification; everything else is
  translated from `tpms_careud.c`.
-/

set_option maxRecDepth 100000

/-- Modelled from the spec: the decoder API status code for `SanityFail`
(insufficient decoded bits or sync mismatch).  The defining header is not part
of the given sources; the spec only requires rejection reasons to be
distinguishable from success counts, and the upstream decoder API convention
uses small negative integers. -/
def DECODE_FAIL_SANITY : Int := -4

/-- Modelled from the spec: the decoder API status code for `IntegrityFail`
(CRC mismatch), a negative status distinct from success counts. -/
def DECODE_FAIL_MIC : Int := -3

/-- Two-pass in-place XOR descrambling cascade, translated from the two `for`
loops of `tpms_careud_decode`: pass 1 is `for i in 1..4, d[i] ^= d[0]`, pass 2
is `for i in 3 down to 0, d[i] ^= d[4]`, operating in place on the 5-byte
payload. -/
def descramble (d : List Nat) : List Nat :=
  let pass1 := [1, 2, 3, 4].foldl (fun a i => a.set i ((a.getD i 0) ^^^ (a.getD 0 0))) d
  [3, 2, 1, 0].foldl (fun a i => a.set i ((a.getD i 0) ^^^ (a.getD 4 0))) pass1

/-- Modelled from the spec: the shared `crc16(bytes, n, polynomial, init)`
routine (CRC-16, MSB-first, no input/output reflection, no final XOR); the
byte count argument is implicit in the list length. -/
def crc16 (message : List Nat) (polynomial init : Nat) : Nat :=
  message.foldl
    (fun remainder byte =>
      (List.range 8).foldl
        (fun r _ =>
          if r &&& 0x8000 ≠ 0 then ((r <<< 1) ^^^ polynomial) % 65536
          else (r <<< 1) % 65536)
        ((remainder ^^^ (byte <<< 8)) % 65536))
    init

/-- Lowercase hexadecimal digit, as printed by `sprintf "%x"`. -/
def hexDigit (n : Nat) : Char :=
  if n < 10 then Char.ofNat (48 + n) else Char.ofNat (87 + n)

/-- Four-character zero-padded lowercase hex rendering, as printed by
`sprintf(id_str, "%04x", id)` for a 16-bit id. -/
def hex4 (n : Nat) : String :=
  String.mk [hexDigit (n / 4096 % 16), hexDigit (n / 256 % 16),
             hexDigit (n / 16 % 16), hexDigit (n % 16)]

/-- The structured reading assembled by `data_make` in `tpms_careud_decode`:
constant model/type tags, hex id string, flags nibble, battery and
pressure-loss status strings, pressure in bar, temperature in degrees C, and
the integrity-method tag. -/
structure Reading where
  model : String
  type : String
  id : String
  flags : Nat
  battery : String
  pressure_BAR : ℚ
  pressure_loss : String
  temperature_C : Int
  mic : String
deriving DecidableEq

/-- Field extraction and reading assembly from the descrambled payload bytes,
translated from lines 95-114 of `tpms_careud_decode`:
`id = (d[1] << 8) | d[4]`, `flags = d[0] & 0x0f`, battery status from flag bit
`0x02`, pressure-loss status from flag bit `0x08`, `pressure = d[3] / 64`,
`temperature = d[2] - 55`. -/
def extractFields (d : List Nat) : Reading :=
  let id := (d.getD 1 0) <<< 8 ||| d.getD 4 0
  let flags := d.getD 0 0 &&& 0x0f
  let temperature := d.getD 2 0
  let pressure := d.getD 3 0
  { model := "Careud"
    type := "TPMS"
    id := hex4 id
    flags := flags
    battery := if flags &&& 0x02 ≠ 0 then "OK" else "LOW"
    pressure_BAR := (pressure : ℚ) / 64
    pressure_loss := if flags &&& 0x08 ≠ 0 then "OK" else "ALARM"
    temperature_C := (temperature : Int) - 55
    mic := "CRC" }

/-- Result of one decode attempt: the C return status together with the
reading handed to `decoder_output_data` (if any). -/
structure DecodeOut where
  ret : Int
  reading : Option Reading
deriving DecidableEq

/-- Bits of one byte, MSB first. -/
def byteToBits (b : Nat) : List Bool :=
  (List.range 8).map (fun i => b.testBit (7 - i))

/-- Bits of a byte sequence, MSB first within each byte. -/
def bytesToBits (bs : List Nat) : List Bool :=
  bs.foldr (fun b acc => byteToBits b ++ acc) []

/-- Byte value of up to 8 bits, MSB first. -/
def bitsToByte (l : List Bool) : Nat :=
  l.foldl (fun acc bit => 2 * acc + cond bit 1 0) 0

/-- Modelled from the spec: the shared `bitbuffer_manchester_decode` primitive.
Consumes raw bits two at a time from the row, emitting one logical bit per
unequal pair (the polarity convention emits the second bit of each pair, which
is the convention consistent with the protocol sync word), stopping at an
equal pair, at the end of the row, or after `max` logical bits. -/
def bitbuffer_manchester_decode : List Bool → Nat → List Bool
  | b1 :: b2 :: rest, m + 1 =>
    if b1 = b2 then [] else b2 :: bitbuffer_manchester_decode rest m
  | _, _ => []

/-- The 9 bytes of a decoded 72-bit window (`packet_bits.bb[0]`). -/
def windowBytes (l : List Bool) : List Nat :=
  (List.range 9).map (fun i => bitsToByte ((l.drop (8 * i)).take 8))

/-- Frame processing of `tpms_careud_decode` after Manchester decoding,
translated from lines 70-125: sync-word check on the first two bytes, CRC
check over the 7 following bytes as transmitted, then descrambling of the
5 payload bytes, field extraction and emission of one reading. -/
def processFrame (b : List Nat) : DecodeOut :=
  if ((b.getD 0 0) <<< 8 ||| b.getD 1 0) ≠ 0x19cf then ⟨DECODE_FAIL_SANITY, none⟩
  else if crc16 ((b.drop 2).take 7) 0x8005 0x0000 ≠ 0 then ⟨DECODE_FAIL_MIC, none⟩
  else ⟨1, some (extractFields (descramble ((b.drop 2).take 5)))⟩

/-- One decode attempt (`tpms_careud_decode`): Manchester-decode 72 logical
bits starting at `bitpos`, reject short windows with `DECODE_FAIL_SANITY`,
then process the framed bytes. -/
def tpms_careud_decode (bits : List Bool) (bitpos : Nat) : DecodeOut :=
  let decoded := bitbuffer_manchester_decode (bits.drop bitpos) 72
  if decoded.length < 72 then ⟨DECODE_FAIL_SANITY, none⟩
  else processFrame (windowBytes decoded)

/-- The 24-bit preamble pattern `{0x55, 0x55, 0xa9}` of
`tpms_careud_callback`. -/
def preambleBits : List Bool := bytesToBits [0x55, 0x55, 0xa9]

/-- Modelled from the spec: the shared `bitbuffer_search` primitive, returning
the first bit position at or after `start` where the whole pattern occurs in
the row, and the row's bit length when there is no such position. -/
def bitbuffer_search (bits : List Bool) (start : Nat) (pat : List Bool) : Nat :=
  (((List.range' start (bits.length + 1 - start)).find?
    (fun q => (bits.drop q).take pat.length == pat)).getD bits.length)

/-- Fuelled form of the preamble-scan loop of `tpms_careud_callback`,
recording every attempt as the pair of the preamble match position and the
decode attempt made 16 bits past it.  The loop body is exactly the C `while`:
continue while a match leaves at least 80 bits in the row, decode at
`bitpos + 16`, then advance the cursor by 2 bits. -/
def scanLoopF : Nat → List Bool → Nat → List (Nat × DecodeOut)
  | 0, _, _ => []
  | fuel + 1, bits, start =>
    let q := bitbuffer_search bits start preambleBits
    if q + 80 ≤ bits.length then
      (q, tpms_careud_decode bits (q + 16)) :: scanLoopF fuel bits (q + 2)
    else []

/-- The preamble-scan loop of `tpms_careud_callback`; the fuel
`bits.length + 1` is sufficient, as proved by `scanLoopF_congr` below. -/
def scanLoop (bits : List Bool) (start : Nat) : List (Nat × DecodeOut) :=
  scanLoopF (bits.length + 1) bits start

/-- Modelled from the spec: the shared `bitbuffer_invert` primitive, the
whole-buffer bit inversion applied once before scanning. -/
def bitbuffer_invert (bits : List Bool) : List Bool := bits.map (fun b => !b)

/-- Entry point `tpms_careud_callback`: invert the buffer, scan for the
preamble, and return `events > 0 ? events : ret` where `events` accumulates
the positive decode results and `ret` is the last decode status (0 when no
candidate was attempted). -/
def tpms_careud_callback (input : List Bool) : Int :=
  let bits := bitbuffer_invert input
  let attempts := scanLoop bits 0
  let events := attempts.foldl (fun acc a => if a.2.ret > 0 then acc + a.2.ret else acc) 0
  let ret := ((attempts.getLast?).map (fun a => a.2.ret)).getD 0
  if events > 0 then events else ret

/-- The readings emitted through `decoder_output_data` while processing one
reception event. -/
def emittedReadings (input : List Bool) : List Reading :=
  (scanLoop (bitbuffer_invert input) 0).filterMap (fun a => a.2.reading)

/-- Modelled from the spec: the forward Manchester encoder used by the
end-to-end scenario, each logical bit becoming the pair `(!b, b)`; this is the
encoder consistent with the decoding convention above. -/
def manchesterEncode (l : List Bool) : List Bool :=
  l.foldr (fun b acc => (!b) :: b :: acc) []

/-- Modelled from the spec: the forward scrambling of the end-to-end scenario,
the inverse of the two-pass descrambling cascade. -/
def forwardScramble (p : List Nat) : List Nat :=
  [p.getD 4 0 ^^^ p.getD 0 0, p.getD 1 0 ^^^ p.getD 0 0, p.getD 2 0 ^^^ p.getD 0 0,
   p.getD 3 0 ^^^ p.getD 0 0, p.getD 0 0]

/-- The transmitted frame of the end-to-end scenario: sync word, scrambled
payload for `[0x0a, 0x12, 0x6e, 0x40, 0x34]`, and the CRC bytes that make the
integrity check pass. -/
def demoFrame : List Nat :=
  let s := forwardScramble [0x0a, 0x12, 0x6e, 0x40, 0x34]
  let c := crc16 s 0x8005 0
  [0x19, 0xcf] ++ s ++ [c >>> 8, c &&& 0xff]

/-- The end-to-end scenario input: preamble `55 55 55`, Manchester-encoded
frame (whose first byte is `a9`), the whole buffer bit-inverted for
transmission. -/
def demoC1input : List Bool :=
  bitbuffer_invert (bytesToBits [0x55, 0x55, 0x55] ++ manchesterEncode (bytesToBits demoFrame))

/-- A reception event whose inverted buffer holds the preamble at offset 0
followed by seven zero bytes: the Manchester window is short, so the single
decode attempt fails the sanity check. -/
def demoC2input : List Bool :=
  bitbuffer_invert (bytesToBits [0x55, 0x55, 0xa9, 0, 0, 0, 0, 0, 0, 0])

/-- An (already inverted) 106-bit row holding the 24-bit preamble pattern at
bit offsets 0 and 26. -/
def demoC6bits : List Bool :=
  preambleBits ++ [true, true] ++ preambleBits ++ List.replicate 56 true

/- Helper lemmas -/

theorem xor_xor_cancel (a b c : Nat) : (a ^^^ b) ^^^ (c ^^^ b) = a ^^^ c := by
  rw [Nat.xor_comm c b, ← Nat.xor_assoc, Nat.xor_assoc a b b, Nat.xor_self, Nat.xor_zero]

theorem xor_cancel_swap (a b : Nat) : a ^^^ (b ^^^ a) = b := by
  rw [Nat.xor_comm b a, ← Nat.xor_assoc, Nat.xor_self, Nat.zero_xor]

theorem descramble_eval (d0 d1 d2 d3 d4 : Nat) :
    descramble [d0, d1, d2, d3, d4] =
      [d0 ^^^ (d4 ^^^ d0), (d1 ^^^ d0) ^^^ (d4 ^^^ d0), (d2 ^^^ d0) ^^^ (d4 ^^^ d0),
       (d3 ^^^ d0) ^^^ (d4 ^^^ d0), d4 ^^^ d0] := rfl

theorem search_ge (bits : List Bool) (start : Nat) (pat : List Bool)
    (h : bitbuffer_search bits start pat + 80 ≤ bits.length) :
    start ≤ bitbuffer_search bits start pat := by
  unfold bitbuffer_search at h ⊢
  cases hf : (List.range' start (bits.length + 1 - start)).find?
      (fun q => (bits.drop q).take pat.length == pat) with
  | none =>
    rw [hf] at h
    simp only [Option.getD_none] at h
    omega
  | some q =>
    simp only [Option.getD_some]
    have hq := List.mem_of_find?_eq_some hf
    rw [List.mem_range'_1] at hq
    exact hq.1

theorem scanLoopF_stop (f : Nat) (bits : List Bool) (start : Nat)
    (h : bits.length < start) : scanLoopF f bits start = [] := by
  cases f with
  | zero => rfl
  | succ g =>
    by_cases hq : bitbuffer_search bits start preambleBits + 80 ≤ bits.length
    · have := search_ge bits start preambleBits hq
      omega
    · simp only [scanLoopF]
      rw [if_neg hq]

theorem scanLoopF_congr (f : Nat) (bits : List Bool) :
    ∀ (g start : Nat), bits.length + 1 - start ≤ 2 * f →
      bits.length + 1 - start ≤ 2 * g →
      scanLoopF f bits start = scanLoopF g bits start := by
  induction f with
  | zero =>
    intro g start hf _
    have hlt : bits.length < start := by omega
    rw [scanLoopF_stop 0 bits start hlt, scanLoopF_stop g bits start hlt]
  | succ f ih =>
    intro g start hf hg
    cases g with
    | zero =>
      have hlt : bits.length < start := by omega
      rw [scanLoopF_stop _ bits start hlt, scanLoopF_stop _ bits start hlt]
    | succ g =>
      simp only [scanLoopF]
      by_cases hq : bitbuffer_search bits start preambleBits + 80 ≤ bits.length
      · have hge := search_ge bits start preambleBits hq
        rw [if_pos hq, if_pos hq]
        exact congrArg _ (ih g (bitbuffer_search bits start preambleBits + 2)
          (by omega) (by omega))
      · rw [if_neg hq, if_neg hq]

theorem scanLoop_eq (bits : List Bool) (start : Nat) :
    scanLoop bits start =
      if bitbuffer_search bits start preambleBits + 80 ≤ bits.length then
        (bitbuffer_search bits start preambleBits,
         tpms_careud_decode bits (bitbuffer_search bits start preambleBits + 16)) ::
          scanLoop bits (bitbuffer_search bits start preambleBits + 2)
      else [] := by
  unfold scanLoop
  simp only [scanLoopF]
  by_cases hq : bitbuffer_search bits start preambleBits + 80 ≤ bits.length
  · have hge := search_ge bits start preambleBits hq
    rw [if_pos hq, if_pos hq]
    exact congrArg _ (scanLoopF_congr bits.length bits (bits.length + 1)
      (bitbuffer_search bits start preambleBits + 2) (by omega) (by omega))
  · rw [if_neg hq, if_neg hq]

theorem scanLoopF_len (f : Nat) (bits : List Bool) :
    ∀ start : Nat, 2 * (scanLoopF f bits start).length ≤ bits.length + 2 - start := by
  induction f with
  | zero =>
    intro start
    simp [scanLoopF]
  | succ f ih =>
    intro start
    simp only [scanLoopF]
    by_cases hq : bitbuffer_search bits start preambleBits + 80 ≤ bits.length
    · have hge := search_ge bits start preambleBits hq
      rw [if_pos hq]
      have := ih (bitbuffer_search bits start preambleBits + 2)
      simp only [List.length_cons]
      omega
    · rw [if_neg hq]
      simp

theorem scanLoopF_mem (f : Nat) (bits : List Bool) :
    ∀ (start : Nat) (a : Nat × DecodeOut), a ∈ scanLoopF f bits start →
      start ≤ a.1 ∧ a.1 + 80 ≤ bits.length ∧ a.2 = tpms_careud_decode bits (a.1 + 16) := by
  induction f with
  | zero =>
    intro start a ha
    simp [scanLoopF] at ha
  | succ f ih =>
    intro start a ha
    simp only [scanLoopF] at ha
    by_cases hq : bitbuffer_search bits start preambleBits + 80 ≤ bits.length
    · have hge := search_ge bits start preambleBits hq
      rw [if_pos hq] at ha
      rcases List.mem_cons.mp ha with h | h
      · subst h
        exact ⟨hge, hq, rfl⟩
      · have := ih _ a h
        exact ⟨by omega, this.2.1, this.2.2⟩
    · rw [if_neg hq] at ha
      simp at ha

theorem tpms_careud_decode_ret (bits : List Bool) (p : Nat) :
    ((tpms_careud_decode bits p).ret = 1 ∧ (tpms_careud_decode bits p).reading.isSome = true) ∨
    ((tpms_careud_decode bits p).ret < 0 ∧ (tpms_careud_decode bits p).reading = none) := by
  simp only [tpms_careud_decode, processFrame]
  split
  · right
    exact ⟨by decide, rfl⟩
  · split
    · right
      exact ⟨by decide, rfl⟩
    · split
      · right
        exact ⟨by decide, rfl⟩
      · left
        exact ⟨rfl, rfl⟩

theorem events_count (L : List (Nat × DecodeOut))
    (h : ∀ a ∈ L, (a.2.ret = 1 ∧ a.2.reading.isSome = true) ∨
        (a.2.ret < 0 ∧ a.2.reading = none)) :
    ∀ acc : Int,
      L.foldl (fun acc a => if a.2.ret > 0 then acc + a.2.ret else acc) acc =
        acc + ((L.filterMap (fun a => a.2.reading)).length : Int) := by
  induction L with
  | nil =>
    intro acc
    simp
  | cons a L ih =>
    intro acc
    have htail := ih (fun b hb => h b (List.mem_cons_of_mem a hb))
    rcases h a (List.mem_cons_self a L) with ⟨h1, h2⟩ | ⟨h1, h2⟩
    · obtain ⟨r, hr⟩ := Option.isSome_iff_exists.mp h2
      simp only [List.foldl_cons, List.filterMap_cons, hr, h1]
      rw [if_pos (by norm_num)]
      rw [htail (acc + 1)]
      simp only [List.length_cons]
      push_cast
      ring
    · simp only [List.foldl_cons, List.filterMap_cons, h2]
      rw [if_neg (by omega)]
      exact htail acc

/-- Claim C4: the descrambler is a pure deterministic function of its 5-byte
input performing exactly the two-pass in-place cascade: first `d[i] ^= d[0]`
for `i = 1..4`, then `d[i] ^= d[4]` for `i = 3` down to `0`, where pass 2 uses
the `d[4]` updated by pass 1 and also updates `d[0]`. -/
theorem descramble_two_pass (d0 d1 d2 d3 d4 : Nat) :
    descramble [d0, d1, d2, d3, d4] =
      let p1 := d1 ^^^ d0
      let p2 := d2 ^^^ d0
      let p3 := d3 ^^^ d0
      let p4 := d4 ^^^ d0
      let q3 := p3 ^^^ p4
      let q2 := p2 ^^^ p4
      let q1 := p1 ^^^ p4
      let q0 := d0 ^^^ p4
      [q0, q1, q2, q3, p4] := rfl

/-- Claim C5: descrambling is deterministic (re-running it on the same input
yields the same output) but applying it twice is not the identity: the 5-byte
input `[1, 0, 0, 0, 0]` is a witness. -/
theorem descramble_not_involutive :
    descramble (descramble [1, 0, 0, 0, 0]) ≠ [1, 0, 0, 0, 0] ∧
    ∀ d : List Nat, descramble d = descramble d :=
  ⟨by decide, fun _ => rfl⟩

/-- Claim C10: the in-place two-pass cascade equals the one-pass closed form
`[d4, d1 XOR d4, d2 XOR d4, d3 XOR d4, d0 XOR d4]` over the original input
bytes. -/
theorem descramble_closed_form (d0 d1 d2 d3 d4 : Nat) :
    descramble [d0, d1, d2, d3, d4] =
      [d4, d1 ^^^ d4, d2 ^^^ d4, d3 ^^^ d4, d0 ^^^ d4] := by
  rw [descramble_eval, xor_cancel_swap d0 d4, xor_xor_cancel d1 d0 d4,
    xor_xor_cancel d2 d0 d4, xor_xor_cancel d3 d0 d4, Nat.xor_comm d4 d0]

/-- The forward scrambling of the end-to-end scenario really is the inverse of
the descrambler. -/
theorem descramble_forwardScramble (p0 p1 p2 p3 p4 : Nat) :
    descramble (forwardScramble [p0, p1, p2, p3, p4]) = [p0, p1, p2, p3, p4] := by
  show descramble [p4 ^^^ p0, p1 ^^^ p0, p2 ^^^ p0, p3 ^^^ p0, p0] = _
  rw [descramble_closed_form]
  simp [Nat.xor_cancel_right]

/-- Claim C7: for every payload the battery status is reported "LOW" exactly
when bit 0x02 of the flags nibble is clear, and the pressure-loss status is
reported "ALARM" exactly when bit 0x08 of the flags nibble is clear; a set bit
means "OK" in both cases. -/
theorem flags_polarity (d : List Nat) :
    ((extractFields d).battery = "LOW" ↔ (extractFields d).flags &&& 0x02 = 0) ∧
    ((extractFields d).battery = "OK" ↔ (extractFields d).flags &&& 0x02 ≠ 0) ∧
    ((extractFields d).pressure_loss = "ALARM" ↔ (extractFields d).flags &&& 0x08 = 0) ∧
    ((extractFields d).pressure_loss = "OK" ↔ (extractFields d).flags &&& 0x08 ≠ 0) := by
  have hOL : ("OK" : String) ≠ "LOW" := by decide
  have hLA : ("LOW" : String) ≠ "ALARM" := by decide
  have hOA : ("OK" : String) ≠ "ALARM" := by decide
  simp only [extractFields]
  refine ⟨?_, ?_, ?_, ?_⟩ <;> split_ifs with hc <;> simp_all

theorem getD_lt_256 (d : List Nat) (h : ∀ x ∈ d, x < 256) (i : Nat) :
    d.getD i 0 < 256 := by
  rcases Nat.lt_or_ge i d.length with hi | hi
  · rw [List.getD_eq_getElem d 0 hi]
    exact h _ (List.getElem_mem hi)
  · rw [List.getD_eq_default d 0 hi]
    norm_num

/-- Claim C8: for payload bytes in `[0, 255]`, the emitted temperature equals
`d[2] - 55` and lies in `[-55, 200]`, and the emitted pressure equals exactly
`d[3] / 64` and lies in `[0, 3.984375]`. -/
theorem temperature_pressure_ranges (d : List Nat) (h : ∀ x ∈ d, x < 256) :
    ((extractFields d).temperature_C = (d.getD 2 0 : Int) - 55 ∧
     -55 ≤ (extractFields d).temperature_C ∧ (extractFields d).temperature_C ≤ 200) ∧
    ((extractFields d).pressure_BAR = (d.getD 3 0 : ℚ) / 64 ∧
     0 ≤ (extractFields d).pressure_BAR ∧ (extractFields d).pressure_BAR ≤ 3.984375) := by
  have h2 := getD_lt_256 d h 2
  have h3 := getD_lt_256 d h 3
  have e1 : (extractFields d).temperature_C = (d.getD 2 0 : Int) - 55 := rfl
  have e2 : (extractFields d).pressure_BAR = (d.getD 3 0 : ℚ) / 64 := rfl
  rw [e1, e2]
  refine ⟨⟨rfl, by omega, by omega⟩, rfl, by positivity, ?_⟩
  have hc : ((d.getD 3 0 : Nat) : ℚ) ≤ 255 := by exact_mod_cast Nat.le_of_lt_succ h3
  have h255 : (3.984375 : ℚ) = 255 / 64 := by norm_num
  rw [h255]
  exact div_le_div_of_nonneg_right hc (by norm_num)

theorem temperature_pressure_ranges_witness :
    ((extractFields [10, 18, 110, 64, 52]).temperature_C =
        (([10, 18, 110, 64, 52].getD 2 0 : Nat) : Int) - 55 ∧
     -55 ≤ (extractFields [10, 18, 110, 64, 52]).temperature_C ∧
     (extractFields [10, 18, 110, 64, 52]).temperature_C ≤ 200) ∧
    ((extractFields [10, 18, 110, 64, 52]).pressure_BAR =
        (([10, 18, 110, 64, 52].getD 3 0 : Nat) : ℚ) / 64 ∧
     0 ≤ (extractFields [10, 18, 110, 64, 52]).pressure_BAR ∧
     (extractFields [10, 18, 110, 64, 52]).pressure_BAR ≤ 3.984375) :=
  temperature_pressure_ranges [10, 18, 110, 64, 52] (by decide)

/-- Claim C3: a decoded 72-bit window that passes the sync check is accepted
and emits a reading if and only if the CRC-16 (polynomial 0x8005, initial
value 0) over the 7 bytes following the sync, taken as transmitted before
descrambling, is exactly zero; a nonzero value yields `DECODE_FAIL_MIC` and no
reading. -/
theorem crc_accept_iff (b : List Nat)
    (hsync : ((b.getD 0 0) <<< 8 ||| b.getD 1 0) = 0x19cf) :
    ((processFrame b).reading.isSome = true ↔ crc16 ((b.drop 2).take 7) 0x8005 0 = 0) ∧
    (crc16 ((b.drop 2).take 7) 0x8005 0 ≠ 0 →
      processFrame b = ⟨DECODE_FAIL_MIC, none⟩) := by
  unfold processFrame
  rw [if_neg (fun hc => hc hsync)]
  by_cases hcrc : crc16 ((b.drop 2).take 7) 0x8005 0 ≠ 0
  · rw [if_pos hcrc]
    simp [hcrc]
  · rw [if_neg hcrc]
    simp at hcrc
    simp [hcrc]

theorem crc_accept_iff_witness :
    ((processFrame demoFrame).reading.isSome = true ↔
      crc16 ((demoFrame.drop 2).take 7) 0x8005 0 = 0) ∧
    (crc16 ((demoFrame.drop 2).take 7) 0x8005 0 ≠ 0 →
      processFrame demoFrame = ⟨DECODE_FAIL_MIC, none⟩) :=
  crc_accept_iff demoFrame (by decide)

/-- Claim C6: after every preamble match the scan resumes exactly 2 bits past
the match, scanning stops exactly when fewer than 80 bits remain at or after
the candidate position, and the 106-bit row with preamble matches at bit
offsets 0 and 26 gets independent decode attempts at both offsets. -/
theorem scan_advance_two :
    (∀ (bits : List Bool) (start : Nat),
      (bitbuffer_search bits start preambleBits + 80 ≤ bits.length →
        scanLoop bits start =
          (bitbuffer_search bits start preambleBits,
           tpms_careud_decode bits (bitbuffer_search bits start preambleBits + 16)) ::
            scanLoop bits (bitbuffer_search bits start preambleBits + 2)) ∧
      (bits.length < bitbuffer_search bits start preambleBits + 80 →
        scanLoop bits start = [])) ∧
    (scanLoop demoC6bits 0).map Prod.fst = [0, 26] := by
  constructor
  · intro bits start
    constructor
    · intro hq
      rw [scanLoop_eq, if_pos hq]
    · intro hq
      rw [scanLoop_eq, if_neg (by omega)]
  · decide

theorem scan_advance_two_witness :
    scanLoop demoC6bits 0 =
      (bitbuffer_search demoC6bits 0 preambleBits,
       tpms_careud_decode demoC6bits (bitbuffer_search demoC6bits 0 preambleBits + 16)) ::
        scanLoop demoC6bits (bitbuffer_search demoC6bits 0 preambleBits + 2) :=
  (scan_advance_two.1 demoC6bits 0).1 (by decide)

/-- Claim C9: processing one reception event always terminates; the scan makes
strictly decreasing progress bounded by the row's bit length: the number of
attempts is bounded by half the remaining bits, and every attempt position
lies at or after the cursor with at least 80 bits remaining. -/
theorem scan_bounded (bits : List Bool) (start : Nat) :
    2 * (scanLoop bits start).length ≤ bits.length + 2 - start ∧
    (scanLoop bits start).all
      (fun a => decide (start ≤ a.1) && decide (a.1 + 80 ≤ bits.length)) = true := by
  constructor
  · exact scanLoopF_len (bits.length + 1) bits start
  · rw [List.all_eq_true]
    intro a ha
    have := scanLoopF_mem (bits.length + 1) bits start a ha
    simp only [Bool.and_eq_true, decide_eq_true_eq]
    exact ⟨this.1, this.2.1⟩

/-- Claim C1, counterexample: for the end-to-end scenario built from the
payload `[0x0a, 0x12, 0x6e, 0x40, 0x34]`, the emitted reading's pressure-loss
status is "OK" (no alarm), not "ALARM": flags nibble 0x0a has bit 0x08 set,
and a set bit means "OK", so the claimed `pressureLossAlarm = true` is false
on this input. -/
theorem end_to_end_no_alarm :
    (emittedReadings demoC1input).map Reading.pressure_loss = ["OK"] ∧
    ("OK" : String) ≠ "ALARM" ∧
    tpms_careud_callback demoC1input = 1 := by
  refine ⟨by decide, by decide, by decide⟩

/-- Claim C1, amended: the end-to-end scenario yields exactly one reading with
`id = "1234"`, `flags = 0x0a`, battery OK (`batteryLow = false`),
`pressureBar = 1`, pressure-loss OK (`pressureLossAlarm = false`, since flag
bit 0x08 is set), `temperatureC = 55`. -/
theorem end_to_end_reading :
    emittedReadings demoC1input =
      [{ model := "Careud", type := "TPMS", id := "1234", flags := 0x0a,
         battery := "OK", pressure_BAR := 1, pressure_loss := "OK",
         temperature_C := 55, mic := "CRC" }] ∧
    tpms_careud_callback demoC1input = 1 := by
  constructor
  · have h : emittedReadings demoC1input = [extractFields [0x0a, 0x12, 0x6e, 0x40, 0x34]] := rfl
    rw [h]
    unfold extractFields
    norm_num [hex4, hexDigit]
    decide
  · decide

/-- Claim C2, counterexample: a buffer whose single preamble candidate fails
the decode yields no reading yet `tpms_careud_callback` returns the negative
status `DECODE_FAIL_SANITY`, not 0, so the result is not always a non-negative
count. -/
theorem callback_returns_negative :
    emittedReadings demoC2input = [] ∧
    tpms_careud_callback demoC2input = DECODE_FAIL_SANITY ∧
    DECODE_FAIL_SANITY < 0 := by
  refine ⟨by decide, by decide, by decide⟩

/-- Claim C2, amended: when the result of `tpms_careud_callback` is positive
it equals the number of readings emitted for that buffer; when no reading is
emitted the result is at most 0 (it is 0 when no preamble candidate was
attempted, and the last attempt's negative status otherwise). -/
theorem callback_event_count (input : List Bool) :
    (0 < tpms_careud_callback input →
      tpms_careud_callback input = ((emittedReadings input).length : Int)) ∧
    (emittedReadings input = [] → tpms_careud_callback input ≤ 0) := by
  have hmem : ∀ a ∈ scanLoop (bitbuffer_invert input) 0,
      (a.2.ret = 1 ∧ a.2.reading.isSome = true) ∨
      (a.2.ret < 0 ∧ a.2.reading = none) := by
    intro a ha
    have h2 := (scanLoopF_mem _ _ _ a ha).2.2
    rw [h2]
    exact tpms_careud_decode_ret _ _
  have hev := events_count _ hmem 0
  simp only [zero_add] at hev
  simp only [tpms_careud_callback, emittedReadings]
  rw [hev]
  constructor
  · intro hpos
    by_cases he : (0 : Int) <
        (((scanLoop (bitbuffer_invert input) 0).filterMap (fun a => a.2.reading)).length : Int)
    · rw [if_pos he]
    · rw [if_neg he] at hpos ⊢
      exfalso
      cases hlast : (scanLoop (bitbuffer_invert input) 0).getLast? with
      | none =>
        rw [hlast] at hpos
        simp at hpos
      | some a =>
        rw [hlast] at hpos
        have hpos2 : (0 : Int) < a.2.ret := hpos
        have hamem : a ∈ scanLoop (bitbuffer_invert input) 0 :=
          List.mem_of_mem_getLast? hlast
        rcases hmem a hamem with ⟨h1, h2⟩ | ⟨h1, h2⟩
        · obtain ⟨r, hr⟩ := Option.isSome_iff_exists.mp h2
          have hmemr : r ∈ (scanLoop (bitbuffer_invert input) 0).filterMap
              (fun a => a.2.reading) := List.mem_filterMap.mpr ⟨a, hamem, hr⟩
          have hlen : 0 < ((scanLoop (bitbuffer_invert input) 0).filterMap
              (fun a => a.2.reading)).length := List.length_pos.mpr (fun hnil => by
            rw [hnil] at hmemr
            simp at hmemr)
          exact he (by exact_mod_cast hlen)
        · omega
  · intro hnil
    rw [hnil]
    simp only [List.length_nil, Nat.cast_zero]
    rw [if_neg (by norm_num)]
    cases hlast : (scanLoop (bitbuffer_invert input) 0).getLast? with
    | none => simp
    | some a =>
      show a.2.ret ≤ 0
      have hamem : a ∈ scanLoop (bitbuffer_invert input) 0 :=
        List.mem_of_mem_getLast? hlast
      rcases hmem a hamem with ⟨h1, h2⟩ | ⟨h1, h2⟩
      · obtain ⟨r, hr⟩ := Option.isSome_iff_exists.mp h2
        have hmemr : r ∈ (scanLoop (bitbuffer_invert input) 0).filterMap
            (fun a => a.2.reading) := List.mem_filterMap.mpr ⟨a, hamem, hr⟩
        rw [hnil] at hmemr
        simp at hmemr
      · omega

theorem callback_event_count_witness :
    tpms_careud_callback demoC2input ≤ 0 ∧
    tpms_careud_callback demoC1input = ((emittedReadings demoC1input).length : Int) :=
  ⟨(callback_event_count demoC2input).2 (by decide),
   (callback_event_count demoC1input).1 (by decide)⟩
